import Mathlib

/-!
Verification development for the MAAP static-analysis core
(`src/agents/c_ast_utils.py` and `src/agents/ast_utils.py`).

The Python source is shallowly embedded: Python sets of names are lists used
only through membership, set `add` is modelled by append-if-absent (which
preserves exactly the membership semantics of the Python sets), visitors
become explicit state-passing functions over a model of the pycparser /
Python `ast` node types, and the two `try/except` entry points become
functions over `Except`-valued parser parameters.
-/

namespace MAAP

/-! ### Python string containment (`needle in hay` on `str` is substring test) -/

/-- `leadMatch n h` holds when `n` occurs at the very front of `h`. -/
def leadMatch : List Char → List Char → Bool
  | [], _ => true
  | _ :: _, [] => false
  | c :: cs, d :: ds => c == d && leadMatch cs ds

/-- Contiguous-sublist occurrence on char lists. -/
def occursInL (needle : List Char) : List Char → Bool
  | [] => leadMatch needle []
  | c :: rest => leadMatch needle (c :: rest) || occursInL needle rest

/-- Python's `needle in hay` for strings: contiguous substring containment
(with the empty needle contained in everything, as in Python). -/
def pyIn (needle hay : String) : Bool := occursInL needle.toList hay.toList

/-! ### Set-as-list helpers (Python `set.add`, membership-preserving) -/

/-- `set.add` for a name set: append if absent (membership equals Python set
membership; we fix an insertion order since only membership is observed). -/
def addName (v : String) (l : List String) : List String :=
  if v ∈ l then l else l ++ [v]

/-- `set.add` for the `(variable, operator)` pair set `potential_reductions`. -/
def addPair (p : String × String) (l : List (String × String)) :
    List (String × String) :=
  if p ∈ l then l else l ++ [p]

/-! ### Statement usage records and the independence grouper
(`SectionVisitor.visit_Compound` in `src/agents/c_ast_utils.py`) -/

/-- The per-statement record built in `visit_Compound` (`stmt_info`):
read set, written set, called-function set and source line (`-1` when the
statement has no coordinate). -/
structure StmtInfo where
  read : List String
  written : List String
  calls : List String
  line : Int
deriving Repr, DecidableEq

/-- Python `a.isdisjoint b` on the name sets. -/
def disj (a b : List String) : Bool := a.all fun x => decide (x ∉ b)

/-- The three-way dependence test of `visit_Compound`: statement `s` is
independent of a group with running written set `cw` and running read set
`cr` iff RAW (`cw ∩ s.read = ∅`), WAR (`cr ∩ s.written = ∅`) and WAW
(`cw ∩ s.written = ∅`) all hold. -/
def indep (cw cr : List String) (s : StmtInfo) : Bool :=
  disj cw s.read && disj cr s.written && disj cw s.written

/-- The inner `while j < len(current_batch)` loop of `visit_Compound`:
starting from running read/written sets `cr`/`cw`, admit statements while
they pass `indep`, updating the running unions; return the admitted suffix
members and the unprocessed remainder (which starts with the first
conflicting statement when the loop stopped on a conflict). -/
def extend (cr cw : List String) : List StmtInfo → List StmtInfo × List StmtInfo
  | [] => ([], [])
  | s :: rest =>
    if indep cw cr s then
      (s :: (extend (cr ++ s.read) (cw ++ s.written) rest).1,
       (extend (cr ++ s.read) (cw ++ s.written) rest).2)
    else ([], s :: rest)

/-- The "meaningful" filter of `visit_Compound`:
`[s for s in group if s['written'] or s['calls']]`. -/
def meaningful (g : List StmtInfo) : List StmtInfo :=
  g.filter fun s => !s.written.isEmpty || !s.calls.isEmpty

/-- The emitted section record (`{'start_line', 'end_line', 'count'}`). -/
structure SectionRec where
  start_line : Int
  end_line : Int
  count : Nat
deriving Repr, DecidableEq

/-- Placeholder statement used only to spell `group[0]` / `group[-1]` on a
group that is by construction non-empty. -/
def defaultStmt : StmtInfo := ⟨[], [], [], -1⟩

/-- `{'start_line': group[0]['line'], 'end_line': group[-1]['line'],
'count': len(group)}`. -/
def mkSection (g : List StmtInfo) : SectionRec :=
  ⟨(g.headD defaultStmt).line, (g.getLastD defaultStmt).line, g.length⟩

/-- The outer `while i < len(current_batch) - 1` loop of `visit_Compound`:
seed a candidate group at the first unprocessed statement (only when a
successor exists), extend it with `extend`, emit a section when the group
has more than one member and more than one meaningful member, and continue
at `j` (the remainder) when the group grew, or at the next statement
otherwise. -/
def scan : List StmtInfo → List SectionRec
  | [] => []
  | s :: rest =>
    if rest.isEmpty then []
    else
      if ((extend s.read s.written rest).1).isEmpty then
        scan rest
      else
        (if 1 < (meaningful (s :: (extend s.read s.written rest).1)).length
         then [mkSection (s :: (extend s.read s.written rest).1)] else [])
        ++ scan (extend s.read s.written rest).2
termination_by l => l.length
decreasing_by
  · simp
  · have h : ∀ (cr cw : List String) (l : List StmtInfo),
        ((extend cr cw l).2).length ≤ l.length := by
      intro cr cw l
      induction l generalizing cr cw with
      | nil => simp [extend]
      | cons a l ih =>
        simp only [extend]
        split
        · exact le_trans (ih _ _) (Nat.le_succ _)
        · simp
    simp only [List.length_cons]
    exact Nat.lt_succ_of_le (h _ _ _)

/-- Pairwise form of the three dependence tests between two single
statements: RAW, WAR and WAW between `a` (earlier) and `b` (later). -/
def pairIndep (a b : StmtInfo) : Bool :=
  disj a.written b.read && disj a.read b.written && disj a.written b.written

/-- Union of the read sets of a list of statements (the running
`combined_read` accumulated over group members). -/
def unionReads : List StmtInfo → List String
  | [] => []
  | s :: g => s.read ++ unionReads g

/-- Union of the written sets of a list of statements (the running
`combined_written` accumulated over group members). -/
def unionWrites : List StmtInfo → List String
  | [] => []
  | s :: g => s.written ++ unionWrites g

theorem disj_eq_true_iff (a b : List String) :
    disj a b = true ↔ ∀ x ∈ a, x ∉ b := by
  simp [disj]

theorem disj_append (a b c : List String) :
    disj (a ++ b) c = (disj a c && disj b c) := by
  simp [disj, List.all_append]

theorem unionReads_snoc (pre : List StmtInfo) (s : StmtInfo) :
    unionReads (pre ++ [s]) = unionReads pre ++ s.read := by
  induction pre with
  | nil => simp [unionReads]
  | cons t pre ih => simp [unionReads, ih]

theorem unionWrites_snoc (pre : List StmtInfo) (s : StmtInfo) :
    unionWrites (pre ++ [s]) = unionWrites pre ++ s.written := by
  induction pre with
  | nil => simp [unionWrites]
  | cons t pre ih => simp [unionWrites, ih]

/-- The incremental test against the running unions accepts `s` exactly when
the exhaustive pairwise test against every member of `g` accepts it. -/
theorem indep_union_iff (g : List StmtInfo) (s : StmtInfo) :
    indep (unionWrites g) (unionReads g) s = true ↔
      ∀ t ∈ g, pairIndep t s = true := by
  induction g with
  | nil => simp [indep, unionReads, unionWrites, disj]
  | cons t g ih =>
    simp only [unionReads, unionWrites, indep, pairIndep, disj_append,
      Bool.and_eq_true, List.forall_mem_cons] at *
    tauto

/-- If the extension loop is started with the running unions of an already
pairwise-independent prefix, the produced group stays pairwise independent. -/
theorem extend_pairwise_aux (l : List StmtInfo) :
    ∀ pre : List StmtInfo,
      pre.Pairwise (fun a b => pairIndep a b = true) →
      (pre ++ (extend (unionReads pre) (unionWrites pre) l).1).Pairwise
        (fun a b => pairIndep a b = true) := by
  induction l with
  | nil => intro pre h; simpa [extend] using h
  | cons s rest ih =>
    intro pre h
    by_cases hs : indep (unionWrites pre) (unionReads pre) s = true
    · simp only [extend, hs, if_pos]
      rw [List.append_cons, ← unionReads_snoc pre s, ← unionWrites_snoc pre s]
      apply ih (pre ++ [s])
      rw [List.pairwise_append]
      refine ⟨h, List.pairwise_singleton _ _, ?_⟩
      intro a ha b hb
      rw [List.mem_singleton] at hb
      subst hb
      exact (indep_union_iff pre b).mp hs a ha
    · simp only [extend, hs]
      simpa using h

theorem extend_fst_nil (cr cw : List String) (l : List StmtInfo)
    (h : (extend cr cw l).1 = []) : (extend cr cw l).2 = l := by
  cases l with
  | nil => simp [extend]
  | cons s rest =>
    simp only [extend] at h ⊢
    split at h
    · simp at h
    · simp_all [extend]

/-- One step of the outer scan: with at least one successor available, the
candidate group seeded at `s` is extended by `extend`, a section is emitted
under the source's two length tests, and the scan resumes at the remainder
(whose head is the first conflicting statement when a conflict stopped the
extension). -/
theorem scan_cons (s : StmtInfo) (rest : List StmtInfo) (h : rest ≠ []) :
    scan (s :: rest) =
      (if 1 < (s :: (extend s.read s.written rest).1).length ∧
          1 < (meaningful (s :: (extend s.read s.written rest).1)).length
       then [mkSection (s :: (extend s.read s.written rest).1)] else [])
      ++ scan (extend s.read s.written rest).2 := by
  rw [scan]
  have hne : rest.isEmpty = false := by
    cases rest with
    | nil => simp at h
    | cons a l => simp
  rw [hne]
  simp only [Bool.false_eq_true, if_false]
  by_cases hfst : ((extend s.read s.written rest).1).isEmpty
  · rw [if_pos hfst]
    have h1 : (extend s.read s.written rest).1 = [] := by
      simpa [List.isEmpty_iff] using hfst
    have h2 : (extend s.read s.written rest).2 = rest := extend_fst_nil _ _ _ h1
    rw [h1, h2]
    simp
  · rw [if_neg hfst]
    have h1 : (extend s.read s.written rest).1 ≠ [] := by
      simpa [List.isEmpty_iff] using hfst
    have hpos : 0 < (extend s.read s.written rest).1.length :=
      List.length_pos.mpr h1
    simp [hpos]

/-- **C1.** The independence grouper proceeds by a left-to-right scan:
a subsequent statement is added to the running group iff the three
disjointness checks (RAW, WAR, WAW) against the running unions pass
(first conjunct); on the first failing statement the group closes and the
conflicting statement heads the unprocessed remainder (second conjunct);
the scan then continues exactly at that remainder, so the conflicting
statement seeds the next candidate group rather than being skipped
(third conjunct). -/
theorem c1_grouping_left_to_right_scan :
    (∀ (cr cw : List String) (s : StmtInfo) (rest : List StmtInfo),
       indep cw cr s = true →
       extend cr cw (s :: rest) =
         (s :: (extend (cr ++ s.read) (cw ++ s.written) rest).1,
          (extend (cr ++ s.read) (cw ++ s.written) rest).2)) ∧
    (∀ (cr cw : List String) (s : StmtInfo) (rest : List StmtInfo),
       indep cw cr s = false →
       extend cr cw (s :: rest) = ([], s :: rest)) ∧
    (∀ (s : StmtInfo) (rest : List StmtInfo), rest ≠ [] →
       scan (s :: rest) =
         (if 1 < (s :: (extend s.read s.written rest).1).length ∧
             1 < (meaningful (s :: (extend s.read s.written rest).1)).length
          then [mkSection (s :: (extend s.read s.written rest).1)] else [])
         ++ scan (extend s.read s.written rest).2) := by
  refine ⟨?_, ?_, scan_cons⟩
  · intro cr cw s rest h
    simp [extend, h]
  · intro cr cw s rest h
    simp [extend, h]

/-- Witness for C1 on concrete statements: `s₂` (reads `b`, writes `y`) is
admitted after a seed with running sets `cr = [a]`, `cw = [x]`; a statement
reading `x` is rejected and heads the remainder; one whole scan step on a
two-statement block unfolds as stated. -/
theorem c1_grouping_left_to_right_scan_witness :
    extend ["a"] ["x"] [⟨["b"], ["y"], [], 2⟩] =
      (⟨["b"], ["y"], [], 2⟩ ::
        (extend (["a"] ++ ["b"]) (["x"] ++ ["y"]) []).1,
       (extend (["a"] ++ ["b"]) (["x"] ++ ["y"]) []).2) ∧
    extend ["a"] ["x"] [⟨["x"], ["z"], [], 3⟩] = ([], [⟨["x"], ["z"], [], 3⟩]) ∧
    scan [⟨["a"], ["x"], [], 1⟩, ⟨["b"], ["y"], [], 2⟩] =
      (if 1 < ((⟨["a"], ["x"], [], 1⟩ : StmtInfo) ::
            (extend ["a"] ["x"] [⟨["b"], ["y"], [], 2⟩]).1).length ∧
          1 < (meaningful ((⟨["a"], ["x"], [], 1⟩ : StmtInfo) ::
            (extend ["a"] ["x"] [⟨["b"], ["y"], [], 2⟩]).1)).length
       then [mkSection ((⟨["a"], ["x"], [], 1⟩ : StmtInfo) ::
            (extend ["a"] ["x"] [⟨["b"], ["y"], [], 2⟩]).1)] else [])
      ++ scan (extend ["a"] ["x"] [⟨["b"], ["y"], [], 2⟩]).2 :=
  ⟨c1_grouping_left_to_right_scan.1 ["a"] ["x"] ⟨["b"], ["y"], [], 2⟩ [] (by decide),
   c1_grouping_left_to_right_scan.2.1 ["a"] ["x"] ⟨["x"], ["z"], [], 3⟩ [] (by decide),
   c1_grouping_left_to_right_scan.2.2 ⟨["a"], ["x"], [], 1⟩ [⟨["b"], ["y"], [], 2⟩]
     (by decide)⟩

/-- **C2.** The incremental check against the running union accepts exactly
the statements the exhaustive pairwise check against every admitted member
accepts (first conjunct), and consequently every candidate group produced by
the grouper is pairwise independent under RAW/WAR/WAW (second conjunct). -/
theorem c2_group_pairwise_conflict_free :
    (∀ (g : List StmtInfo) (s : StmtInfo),
       indep (unionWrites g) (unionReads g) s = true ↔
         ∀ t ∈ g, pairIndep t s = true) ∧
    (∀ (s : StmtInfo) (rest : List StmtInfo),
       (s :: (extend s.read s.written rest).1).Pairwise
         (fun a b => pairIndep a b = true)) := by
  refine ⟨indep_union_iff, ?_⟩
  intro s rest
  have h := extend_pairwise_aux rest [s] (List.pairwise_singleton _ s)
  simpa [unionReads, unionWrites] using h

/-- **C8.** A candidate group contributes a section iff it has at least two
meaningful members (first conjunct; the source's extra `len(group) > 1` test
is subsumed because meaningful members are group members), and a statement
is meaningful exactly when its written set or its calls set is non-empty
(second conjunct). -/
theorem c8_emit_iff_two_meaningful_members :
    (∀ (s : StmtInfo) (rest : List StmtInfo), rest ≠ [] →
       scan (s :: rest) =
         (if 1 < (meaningful (s :: (extend s.read s.written rest).1)).length
          then [mkSection (s :: (extend s.read s.written rest).1)] else [])
         ++ scan (extend s.read s.written rest).2) ∧
    (∀ (t : StmtInfo) (g : List StmtInfo),
       t ∈ meaningful g ↔ t ∈ g ∧ (t.written ≠ [] ∨ t.calls ≠ [])) := by
  constructor
  · intro s rest h
    rw [scan_cons s rest h]
    congr 1
    apply if_congr _ rfl rfl
    constructor
    · exact fun hx => hx.2
    · intro hm
      refine ⟨?_, hm⟩
      calc 1 < (meaningful (s :: (extend s.read s.written rest).1)).length := hm
        _ ≤ (s :: (extend s.read s.written rest).1).length :=
          List.length_filter_le _ _
  · intro t g
    simp [meaningful, List.mem_filter, Bool.or_eq_true, Bool.not_eq_true',
      List.isEmpty_iff]

/-- Witness for C8: one scan step on a concrete two-statement block, and the
meaningful test on a concrete writing statement. -/
theorem c8_emit_iff_two_meaningful_members_witness :
    scan [⟨["a"], ["x"], [], 1⟩, ⟨["b"], ["y"], [], 2⟩] =
      (if 1 < (meaningful ((⟨["a"], ["x"], [], 1⟩ : StmtInfo) ::
            (extend ["a"] ["x"] [⟨["b"], ["y"], [], 2⟩]).1)).length
       then [mkSection ((⟨["a"], ["x"], [], 1⟩ : StmtInfo) ::
            (extend ["a"] ["x"] [⟨["b"], ["y"], [], 2⟩]).1)] else [])
      ++ scan (extend ["a"] ["x"] [⟨["b"], ["y"], [], 2⟩]).2 ∧
    ((⟨["a"], ["x"], [], 1⟩ : StmtInfo) ∈ meaningful [⟨["a"], ["x"], [], 1⟩] ↔
      (⟨["a"], ["x"], [], 1⟩ : StmtInfo) ∈ [(⟨["a"], ["x"], [], 1⟩ : StmtInfo)] ∧
        ((["x"] : List String) ≠ [] ∨ ([] : List String) ≠ [])) :=
  ⟨c8_emit_iff_two_meaningful_members.1 ⟨["a"], ["x"], [], 1⟩
      [⟨["b"], ["y"], [], 2⟩] (by decide),
   c8_emit_iff_two_meaningful_members.2 ⟨["a"], ["x"], [], 1⟩
      [⟨["a"], ["x"], [], 1⟩]⟩

/-! ### Model of the pycparser nodes used by the analyzers.

Constructors mirror the pycparser node kinds the visitors in
`src/agents/c_ast_utils.py` dispatch on; coordinates are not modelled (the
source falls back to a default when `coord` is `None`). -/

inductive CNode where
  | idN (vname : String)
  | constN (val : String)
  | binopN (op : String) (lhs rhs : CNode)
  | unaryN (op : String) (expr : CNode)
  | assignN (op : String) (lvalue rvalue : CNode)
  | arrayRefN (arr sub : CNode)
  | structRefN (base : CNode) (field : String)
  | funcCallN (fn : CNode) (args : List CNode)
  | declN (dname : String) (dinit : Option CNode)
  | declListN (decls : List CNode)
  | compoundN (items : List CNode)
  | forN (finit fcond fnext : Option CNode) (fbody : CNode)
deriving Repr

/-! ### `VariableUsageVisitor` (per-statement read/write/call analysis) -/

/-- State of `VariableUsageVisitor`: `read`, `written`, `func_calls`. -/
structure VUState where
  read : List String
  written : List String
  func_calls : List String
deriving Repr, DecidableEq

def VUState.start : VUState := ⟨[], [], []⟩

mutual

/-- `VariableUsageVisitor.visit`: dispatch on the node kind with the
source's `visit_Assignment` / `visit_UnaryOp` / `visit_ID` /
`visit_FuncCall` overrides; every other kind falls back to
`generic_visit` (children in pycparser order). In `visit_FuncCall` only
the arguments are visited (the callee expression is not). -/
def vuVisit (st : VUState) : CNode → VUState
  | .idN v => { st with read := addName v st.read }
  | .constN _ => st
  | .binopN _ l r => vuVisit (vuVisit st l) r
  | .unaryN op e =>
    if op = "p++" ∨ op = "p--" ∨ op = "++p" ∨ op = "--p" then
      vuVisit (vuLvalue st e) e
    else
      vuVisit st e
  | .assignN _ lv rv => vuVisit (vuLvalue st lv) rv
  | .arrayRefN a s => vuVisit (vuVisit st a) s
  | .structRefN b f =>
    let st1 := vuVisit st b
    { st1 with read := addName f st1.read }
  | .funcCallN fn args =>
    let st1 :=
      match fn with
      | .idN f => { st with func_calls := addName f st.func_calls }
      | _ => st
    vuVisitList st1 args
  | .declN _ i => vuVisitOpt st i
  | .declListN ds => vuVisitList st ds
  | .compoundN items => vuVisitList st items
  | .forN i c n b => vuVisit (vuVisitOpt (vuVisitOpt (vuVisitOpt st i) c) n) b

/-- `VariableUsageVisitor._analyze_lvalue`: a plain identifier is written;
an array target reads the subscript and the base and writes the base
identifier; a struct target visits its base; anything else is ignored. -/
def vuLvalue (st : VUState) : CNode → VUState
  | .idN v => { st with written := addName v st.written }
  | .arrayRefN a s =>
    let st1 := vuVisit st s
    let st2 := vuVisit st1 a
    match a with
    | .idN v => { st2 with written := addName v st2.written }
    | _ => st2
  | .structRefN b _ => vuVisit st b
  | _ => st

def vuVisitOpt (st : VUState) : Option CNode → VUState
  | none => st
  | some n => vuVisit st n

def vuVisitList (st : VUState) : List CNode → VUState
  | [] => st
  | n :: rest => vuVisitList (vuVisit st n) rest

end

/-- The `stmt_info` record that `SectionVisitor.visit_Compound` builds for
one statement (line is `-1`: coordinates are not modelled, matching the
source's `stmt.coord.line if stmt.coord else -1` fallback). -/
def stmtInfoOf (n : CNode) : StmtInfo :=
  let u := vuVisit VUState.start n
  ⟨u.read, u.written, u.func_calls, -1⟩

mutual

/-- `SectionVisitor` over a whole tree: every compound block's statement
list is run through the grouping scan, and traversal continues into
children. -/
def sectionVisit : CNode → List SectionRec
  | .idN _ => []
  | .constN _ => []
  | .binopN _ l r => sectionVisit l ++ sectionVisit r
  | .unaryN _ e => sectionVisit e
  | .assignN _ lv rv => sectionVisit lv ++ sectionVisit rv
  | .arrayRefN a s => sectionVisit a ++ sectionVisit s
  | .structRefN b _ => sectionVisit b
  | .funcCallN fn args => sectionVisit fn ++ sectionVisitList args
  | .declN _ i => sectionVisitOpt i
  | .declListN ds => sectionVisitList ds
  | .compoundN items => scan (items.map stmtInfoOf) ++ sectionVisitList items
  | .forN i c n b =>
    sectionVisitOpt i ++ sectionVisitOpt c ++ sectionVisitOpt n ++ sectionVisit b

def sectionVisitOpt : Option CNode → List SectionRec
  | none => []
  | some n => sectionVisit n

def sectionVisitList : List CNode → List SectionRec
  | [] => []
  | n :: rest => sectionVisit n ++ sectionVisitList rest

end

/-! ### `CLoopBodyAnalyzer` (loop-body reduction / private / shared sets) -/

/-- State of `CLoopBodyAnalyzer`. -/
structure BAState where
  potential_reductions : List (String × String)
  local_vars : List String
  shared_vars : List String
  all_vars_read : List String
  all_vars_written : List String
  has_function_calls : Bool
  has_array_access : Bool
deriving Repr, DecidableEq

def BAState.init : BAState := ⟨[], [], [], [], [], false, false⟩

/-- The compound-assignment operators recognized as reduction patterns. -/
def redOps : List String := ["+=", "-=", "*=", "|=", "&=", "^="]

/-- The part of `CLoopBodyAnalyzer.visit_Assignment` that runs before
`generic_visit`: record the written identifier and the reduction candidate
for a compound assignment or a `var = var op expr` pattern. -/
def baAssignPre (st : BAState) (op : String) (lv rv : CNode) : BAState :=
  match lv with
  | .idN v =>
    let stW := { st with all_vars_written := addName v st.all_vars_written }
    if op ∈ redOps then
      { stW with potential_reductions := addPair (v, op) stW.potential_reductions }
    else if op = "=" then
      match rv with
      | .binopN bop (.idN l) _ =>
        if l = v then
          { stW with potential_reductions := addPair (v, bop) stW.potential_reductions }
        else stW
      | _ => stW
    else stW
  | _ => st

/-- `CLoopBodyAnalyzer.visit_ID`: record a read; a name not declared
locally (so far) is also recorded as potentially shared (the read-add does
not change `local_vars`, so testing `local_vars` before or after it is the
same). -/
def baSeeId (st : BAState) (v : String) : BAState :=
  if v ∈ st.local_vars then
    { st with all_vars_read := addName v st.all_vars_read }
  else
    { st with all_vars_read := addName v st.all_vars_read,
              shared_vars := addName v st.shared_vars }

mutual

/-- `CLoopBodyAnalyzer.visit`: overrides for `Assignment`, `Decl`, `ID`,
`FuncCall` and `ArrayRef` (each ending in `generic_visit` except
`visit_ID`), `generic_visit` for everything else. -/
def baVisit (st : BAState) : CNode → BAState
  | .idN v => baSeeId st v
  | .constN _ => st
  | .binopN _ l r => baVisit (baVisit st l) r
  | .unaryN _ e => baVisit st e
  | .assignN op lv rv => baVisit (baVisit (baAssignPre st op lv rv) lv) rv
  | .arrayRefN a s => baVisit (baVisit { st with has_array_access := true } a) s
  | .structRefN b f => baSeeId (baVisit st b) f
  | .funcCallN fn args =>
    baVisitList (baVisit { st with has_function_calls := true } fn) args
  | .declN dname i =>
    baVisitOpt
      (if dname = "" then st
       else { st with local_vars := addName dname st.local_vars }) i
  | .declListN ds => baVisitList st ds
  | .compoundN items => baVisitList st items
  | .forN i c n b => baVisit (baVisitOpt (baVisitOpt (baVisitOpt st i) c) n) b

def baVisitOpt (st : BAState) : Option CNode → BAState
  | none => st
  | some n => baVisit st n

def baVisitList (st : BAState) : List CNode → BAState
  | [] => st
  | n :: rest => baVisitList (baVisit st n) rest

end

/-! ### `CLoopVisitor` (loop records) -/

/-- The per-loop record assembled by `CLoopVisitor.visit_For` (coordinates
and the pretty-printed condition/increment strings are not modelled; every
analysis field is). -/
structure LoopInfo where
  is_nested : Bool
  depth : Nat
  init_var : Option String
  potential_reductions : List (String × String)
  potential_private_vars : List String
  potential_shared_vars : List String
  has_function_calls : Bool
  has_array_access : Bool
deriving Repr, DecidableEq

/-- `CLoopVisitor._extract_init_var`. -/
def extractInitVar : CNode → Option String
  | .assignN _ (.idN v) _ => some v
  | .declListN (.declN n _ :: _) => some n
  | .declN n _ => some n
  | _ => none

/-- Assemble the loop record of `visit_For` at nesting depth `d`. -/
def mkLoopInfo (d : Nat) (finit : Option CNode) (body : CNode) : LoopInfo :=
  let ba := baVisit BAState.init body
  { is_nested := decide (0 < d)
    depth := d
    init_var := finit.bind extractInitVar
    potential_reductions := ba.potential_reductions
    potential_private_vars := ba.local_vars
    potential_shared_vars := ba.shared_vars
    has_function_calls := ba.has_function_calls
    has_array_access := ba.has_array_access }

mutual

/-- `CLoopVisitor` traversal with the `current_depth` counter: a `For`
node records its loop info at the current depth, then visits all of its
children at depth `+ 1`; every other node kind forwards the depth
unchanged to its children. -/
def cLoopVisit (d : Nat) : CNode → List LoopInfo
  | .idN _ => []
  | .constN _ => []
  | .binopN _ l r => cLoopVisit d l ++ cLoopVisit d r
  | .unaryN _ e => cLoopVisit d e
  | .assignN _ lv rv => cLoopVisit d lv ++ cLoopVisit d rv
  | .arrayRefN a s => cLoopVisit d a ++ cLoopVisit d s
  | .structRefN b _ => cLoopVisit d b
  | .funcCallN fn args => cLoopVisit d fn ++ cLoopVisitList d args
  | .declN _ i => cLoopVisitOpt d i
  | .declListN ds => cLoopVisitList d ds
  | .compoundN items => cLoopVisitList d items
  | .forN i c n b =>
    mkLoopInfo d i b ::
      (cLoopVisitOpt (d + 1) i ++ cLoopVisitOpt (d + 1) c ++
       cLoopVisitOpt (d + 1) n ++ cLoopVisit (d + 1) b)

def cLoopVisitOpt (d : Nat) : Option CNode → List LoopInfo
  | none => []
  | some n => cLoopVisit d n

def cLoopVisitList (d : Nat) : List CNode → List LoopInfo
  | [] => []
  | n :: rest => cLoopVisit d n ++ cLoopVisitList d rest

end

/-! ### The C report's shared-variable filter and entry point -/

/-- The filter in `analyze_c_code_ast` that builds the reported
"Potential Shared Variables" list:
`[v for v in shared if v not in (loop['init_var'] or '') and v not in private]`.
`v not in (loop['init_var'] or '')` is Python *substring* membership on the
iterator name (`pyIn`), and the second test is list membership. -/
def reportShared (loop : LoopInfo) : List String :=
  loop.potential_shared_vars.filter fun v =>
    !pyIn v (loop.init_var.getD "") &&
      !decide (v ∈ loop.potential_private_vars)

/-- `analyze_c_code_ast`, with preprocessing plus `CParser.parse` modelled
as an `Except`-valued parameter (`.error` carries the message of the
exception caught by the source's `except Exception` handler) and the
success-path text rendering abstracted as `render` over the structured
results (no claim concerns the rendered text of a successful C report). -/
def analyze_c_code_ast (parse : String → Except String CNode)
    (render : List LoopInfo → List SectionRec → String)
    (source_code : String) : String :=
  match parse source_code with
  | .error e =>
    "C Parsing Error: " ++ e ++
      "\n\nNote: pycparser requires preprocessed C code. Please ensure #include directives are resolved or removed for analysis."
  | .ok tree =>
    if (cLoopVisit 0 tree).isEmpty && (sectionVisit tree).isEmpty then
      "No parallelizable loops or sections found."
    else render (cLoopVisit 0 tree) (sectionVisit tree)

/-! ### Model of the Python `ast` loop extractor (`src/agents/ast_utils.py`) -/

/-- Shapes a Python `for` target can take (`ast.Name`, `ast.Tuple`, and the
patterns the extractor does not decompose). -/
inductive PyTarget where
  | nameT (pid : String)
  | tupleT (elts : List PyTarget)
  | starredT (inner : PyTarget)
  | attributeT (base : PyTarget) (attr : String)
  | subscriptT (base : PyTarget)
  | listT (elts : List PyTarget)
deriving Repr

/-- Python statements as far as the loop extractor observes them: `for`
loops carrying target, line range and body, and any non-loop statement. -/
inductive PyStmt where
  | forS (target : PyTarget) (lineno end_lineno : Nat) (body : List PyStmt)
  | passS
deriving Repr

/-- The loop record built by `LoopVisitor.visit_For`. -/
structure PyLoop where
  target_var : String
  start_line : Nat
  end_line : Nat
  is_nested : Bool
deriving Repr, DecidableEq

/-- `LoopVisitor.visit_For` target extraction: a `Name` target yields its
identifier; a `Tuple` target yields the comma-join of exactly the `id`s of
its `Name` elements (non-name sub-patterns silently dropped); any other
shape yields the `complex_target` label. -/
def targetVar : PyTarget → String
  | .nameT pid => pid
  | .tupleT elts =>
    String.intercalate ", "
      (elts.filterMap fun e =>
        match e with
        | .nameT pid => some pid
        | _ => none)
  | _ => "complex_target"

/-- Spec-side description of the tuple-target case ("exactly the
simple-name elements it contains, silently dropping non-name
sub-patterns"), to be compared with the `targetVar` implementation. -/
def simpleNames : List PyTarget → List String
  | [] => []
  | .nameT pid :: rest => pid :: simpleNames rest
  | _ :: rest => simpleNames rest

mutual

/-- `LoopVisitor` traversal: each `for` appends one record — with
`is_nested` hardcoded to `false` as in the source — and `generic_visit`
continues into the body, so nested loops yield their own records. -/
def pyLoops : PyStmt → List PyLoop
  | .forS tgt ln el body => ⟨targetVar tgt, ln, el, false⟩ :: pyLoopsList body
  | .passS => []

def pyLoopsList : List PyStmt → List PyLoop
  | [] => []
  | s :: rest => pyLoops s ++ pyLoopsList rest

end

/-- The report assembly of `analyze_code_ast` (apostrophes written `\x27`). -/
def pyReport (loops : List PyLoop) : String :=
  if loops.isEmpty then "No explicit \x27for\x27 loops found by static analysis."
  else
    "AST Static Analysis found the following loops:\n" ++
      String.join (loops.map fun l =>
        "- Loop at line " ++ toString l.start_line ++ " to " ++
          toString l.end_line ++ " (iterating over \x27" ++ l.target_var ++
          "\x27)\n")

/-- `analyze_code_ast`, with the external `ast.parse` call modelled as an
`Except`-valued parameter (`.error` models the raised `SyntaxError`, whose
message the `except SyntaxError` handler interpolates into the returned
string). -/
def analyze_code_ast (parse : String → Except String (List PyStmt))
    (source_code : String) : String :=
  match parse source_code with
  | .error e => "Syntax Error during AST parsing: " ++ e
  | .ok tree => pyReport (pyLoopsList tree)

/-! ### Helper lemmas about the set-insert operations and the analyzers -/

theorem mem_addName_self (v : String) (l : List String) : v ∈ addName v l := by
  unfold addName
  split
  · assumption
  · simp

theorem mem_addName_of_mem {x : String} {l : List String} (v : String)
    (h : x ∈ l) : x ∈ addName v l := by
  unfold addName
  split
  · exact h
  · exact List.mem_append_left _ h

theorem mem_addPair_self (p : String × String) (l : List (String × String)) :
    p ∈ addPair p l := by
  unfold addPair
  split
  · assumption
  · simp

theorem subset_addPair (p : String × String) (l : List (String × String)) :
    l ⊆ addPair p l := by
  unfold addPair
  split
  · exact fun x h => h
  · exact List.subset_append_left _ _

theorem baSeeId_red (st : BAState) (v : String) :
    (baSeeId st v).potential_reductions = st.potential_reductions := by
  unfold baSeeId
  split <;> rfl

theorem baSeeId_written (st : BAState) (v : String) :
    (baSeeId st v).all_vars_written = st.all_vars_written := by
  unfold baSeeId
  split <;> rfl

theorem baSeeId_haa (st : BAState) (v : String) :
    (baSeeId st v).has_array_access = st.has_array_access := by
  unfold baSeeId
  split <;> rfl

theorem baSeeId_read_self (st : BAState) (v : String) :
    v ∈ (baSeeId st v).all_vars_read := by
  unfold baSeeId
  split <;> exact mem_addName_self v _

theorem baSeeId_read_of_mem {x : String} (st : BAState) (v : String)
    (h : x ∈ st.all_vars_read) : x ∈ (baSeeId st v).all_vars_read := by
  unfold baSeeId
  split <;> exact mem_addName_of_mem v h

theorem baAssignPre_red (st : BAState) (op : String) (lv rv : CNode) :
    st.potential_reductions ⊆ (baAssignPre st op lv rv).potential_reductions := by
  unfold baAssignPre
  cases lv <;> try exact fun x h => h
  case idN v =>
    dsimp only
    split
    · exact subset_addPair _ _
    · split
      · split
        · split
          · exact subset_addPair _ _
          · exact fun x h => h
        · exact fun x h => h
      · exact fun x h => h

mutual

/-- Visiting any node never removes recorded reduction candidates. -/
theorem baVisit_red_mono : ∀ (n : CNode) (st : BAState),
    st.potential_reductions ⊆ (baVisit st n).potential_reductions
  | .idN v, st => by
    simp only [baVisit, baSeeId_red]
    exact fun x h => h
  | .constN _, st => fun x h => h
  | .binopN _ l r, st => by
    simp only [baVisit]
    exact (baVisit_red_mono l st).trans (baVisit_red_mono r _)
  | .unaryN _ e, st => by
    simp only [baVisit]
    exact baVisit_red_mono e st
  | .assignN op lv rv, st => by
    simp only [baVisit]
    exact ((baAssignPre_red st op lv rv).trans (baVisit_red_mono lv _)).trans
      (baVisit_red_mono rv _)
  | .arrayRefN a s, st => by
    simp only [baVisit]
    exact (baVisit_red_mono a { st with has_array_access := true }).trans
      (baVisit_red_mono s _)
  | .structRefN b f, st => by
    simp only [baVisit, baSeeId_red]
    exact baVisit_red_mono b st
  | .funcCallN fn args, st => by
    simp only [baVisit]
    exact (baVisit_red_mono fn { st with has_function_calls := true }).trans
      (baVisitList_red_mono args _)
  | .declN dname i, st => by
    simp only [baVisit]
    split
    · exact baVisitOpt_red_mono i st
    · exact baVisitOpt_red_mono i
        { st with local_vars := addName dname st.local_vars }
  | .declListN ds, st => by
    simp only [baVisit]
    exact baVisitList_red_mono ds st
  | .compoundN items, st => by
    simp only [baVisit]
    exact baVisitList_red_mono items st
  | .forN i c n b, st => by
    simp only [baVisit]
    exact (((baVisitOpt_red_mono i st).trans (baVisitOpt_red_mono c _)).trans
      (baVisitOpt_red_mono n _)).trans (baVisit_red_mono b _)

theorem baVisitOpt_red_mono : ∀ (o : Option CNode) (st : BAState),
    st.potential_reductions ⊆ (baVisitOpt st o).potential_reductions
  | none, _st => fun _x h => h
  | some n, st => baVisit_red_mono n st

theorem baVisitList_red_mono : ∀ (l : List CNode) (st : BAState),
    st.potential_reductions ⊆ (baVisitList st l).potential_reductions
  | [], _st => fun _x h => h
  | n :: rest, st =>
    (baVisit_red_mono n st).trans (baVisitList_red_mono rest _)

end

/-- A compound (or self-referential) assignment records its reduction pair,
and the pair survives the rest of the visit. -/
theorem red_mem_assign (st : BAState) (op v : String) (rv : CNode)
    (h : op ∈ redOps) :
    (v, op) ∈ (baVisit st (.assignN op (.idN v) rv)).potential_reductions := by
  have h0 : (v, op) ∈ (baAssignPre st op (.idN v) rv).potential_reductions := by
    unfold baAssignPre
    dsimp only
    rw [if_pos h]
    exact mem_addPair_self _ _
  have h1 : (v, op) ∈
      (baVisit (baAssignPre st op (.idN v) rv) (.idN v)).potential_reductions := by
    simpa only [baVisit, baSeeId_red] using h0
  simpa only [baVisit] using baVisit_red_mono rv _ h1

/-- **C3 counterexample.** For the loop `for (int i; ...) { total += x; }`
the analyzer records `(total, +=)` as a reduction candidate, yet the
report's "Potential Shared Variables" filter also keeps `total`: a
reduction variable is not excluded from the shared-variables list,
refuting "assigns role Reduction ... and never role Shared; ... excluded
from the shared-variables list". -/
theorem c3_reduction_also_listed_shared_counterexample :
    cLoopVisit 0 (.forN (some (.declN "i" none)) none none
        (.compoundN [.assignN "+=" (.idN "total") (.idN "x")]))
      = [mkLoopInfo 0 (some (.declN "i" none))
          (.compoundN [.assignN "+=" (.idN "total") (.idN "x")])] ∧
    ("total", "+=") ∈ (mkLoopInfo 0 (some (.declN "i" none))
        (.compoundN [.assignN "+=" (.idN "total") (.idN "x")])).potential_reductions ∧
    "total" ∈ reportShared (mkLoopInfo 0 (some (.declN "i" none))
        (.compoundN [.assignN "+=" (.idN "total") (.idN "x")])) := by
  decide

/-- **C3 (amended).** A compound assignment `v op= e` always records
`(v, op)` among the loop body's reduction candidates (first conjunct), but
the reported shared-variables list is filtered only by iterator-substring
and private-list membership — reduction status plays no role in it, so a
read, non-local reduction variable also appears there (second conjunct). -/
theorem c3_reduction_recorded_but_shared_filter_ignores_reductions :
    (∀ (st : BAState) (op v : String) (rv : CNode), op ∈ redOps →
       (v, op) ∈ (baVisit st (.assignN op (.idN v) rv)).potential_reductions) ∧
    (∀ (L : LoopInfo) (v : String),
       v ∈ reportShared L ↔
         v ∈ L.potential_shared_vars ∧
           pyIn v (L.init_var.getD "") = false ∧
           v ∉ L.potential_private_vars) := by
  constructor
  · intro st op v rv h
    exact red_mem_assign st op v rv h
  · intro L v
    simp [reportShared, List.mem_filter, Bool.and_eq_true, Bool.not_eq_true',
      decide_eq_false_iff_not, and_assoc]

/-- Witness for C3 (amended) at a concrete compound assignment. -/
theorem c3_reduction_recorded_witness :
    ("total", "+=") ∈ (baVisit BAState.init
        (.assignN "+=" (.idN "total") (.idN "x"))).potential_reductions :=
  c3_reduction_recorded_but_shared_filter_ignores_reductions.1
    BAState.init "+=" "total" (.idN "x") (by decide)

/-- **C4 counterexample.** A body with both `total += x` and `total *= y`
records *both* pairs — `potential_reductions` is a set of
(variable, operator) pairs, so conflicting operators on one variable are
all kept; the first-observed operator does not win and no warning exists. -/
theorem c4_conflicting_operators_both_recorded_counterexample :
    (baVisit BAState.init (.compoundN
        [.assignN "+=" (.idN "total") (.idN "x"),
         .assignN "*=" (.idN "total") (.idN "y")])).potential_reductions
      = [("total", "+="), ("total", "*=")] := by
  decide

/-- **C4 (amended).** Every observed compound-assignment operator is
recorded for its variable: after two compound assignments to the same
variable with (possibly different) operators, both pairs are members of the
reduction-candidate set — nothing is merged, dropped, or flagged. -/
theorem c4_every_observed_operator_recorded :
    ∀ (st : BAState) (v op1 op2 : String) (rv1 rv2 : CNode),
      op1 ∈ redOps → op2 ∈ redOps →
      (v, op1) ∈ (baVisitList st
          [.assignN op1 (.idN v) rv1,
           .assignN op2 (.idN v) rv2]).potential_reductions ∧
      (v, op2) ∈ (baVisitList st
          [.assignN op1 (.idN v) rv1,
           .assignN op2 (.idN v) rv2]).potential_reductions := by
  intro st v op1 op2 rv1 rv2 h1 h2
  constructor
  · have hm := red_mem_assign st op1 v rv1 h1
    have hk := baVisit_red_mono (.assignN op2 (.idN v) rv2)
      (baVisit st (.assignN op1 (.idN v) rv1)) hm
    simpa [baVisitList] using hk
  · have hm := red_mem_assign (baVisit st (.assignN op1 (.idN v) rv1)) op2 v rv2 h2
    simpa [baVisitList] using hm

/-- Witness for C4 (amended) at the `+=` / `*=` conflict. -/
theorem c4_every_observed_operator_recorded_witness :
    ("total", "+=") ∈ (baVisitList BAState.init
        [.assignN "+=" (.idN "total") (.idN "x"),
         .assignN "*=" (.idN "total") (.idN "y")]).potential_reductions ∧
    ("total", "*=") ∈ (baVisitList BAState.init
        [.assignN "+=" (.idN "total") (.idN "x"),
         .assignN "*=" (.idN "total") (.idN "y")]).potential_reductions :=
  c4_every_observed_operator_recorded BAState.init "total" "+=" "*="
    (.idN "x") (.idN "y") (by decide) (by decide)

/-- **C5 counterexample.** On `a[i] = e` the loop-body analyzer — the only
analysis with a `has_array_access` flag — sets the flag but does *not* add
the array identifier `a` to its written set (only plain-identifier
assignment targets are recorded there), refuting the claimed conjunction. -/
theorem c5_array_flag_without_written_counterexample :
    (baVisit BAState.init (.assignN "="
        (.arrayRefN (.idN "a") (.idN "i")) (.idN "e"))).has_array_access = true ∧
    "a" ∉ (baVisit BAState.init (.assignN "="
        (.arrayRefN (.idN "a") (.idN "i")) (.idN "e"))).all_vars_written := by
  decide

/-- **C5 (amended).** On an assignment `a[i] = e`: the statement-level
usage visitor adds `a` to `written` and treats the base `a`, the subscript
`i` and the right-hand side as reads (it has no array flag); the loop-body
analyzer sets `has_array_access` and records the base and subscript as
reads, but leaves its written set empty (only plain-identifier targets are
recorded as written there). -/
theorem c5_array_target_split_across_analyzers :
    ∀ (op aN iN eN : String),
      aN ∈ (vuVisit VUState.start (.assignN op
          (.arrayRefN (.idN aN) (.idN iN)) (.idN eN))).written ∧
      aN ∈ (vuVisit VUState.start (.assignN op
          (.arrayRefN (.idN aN) (.idN iN)) (.idN eN))).read ∧
      iN ∈ (vuVisit VUState.start (.assignN op
          (.arrayRefN (.idN aN) (.idN iN)) (.idN eN))).read ∧
      eN ∈ (vuVisit VUState.start (.assignN op
          (.arrayRefN (.idN aN) (.idN iN)) (.idN eN))).read ∧
      (baVisit BAState.init (.assignN op
          (.arrayRefN (.idN aN) (.idN iN)) (.idN eN))).has_array_access = true ∧
      aN ∈ (baVisit BAState.init (.assignN op
          (.arrayRefN (.idN aN) (.idN iN)) (.idN eN))).all_vars_read ∧
      iN ∈ (baVisit BAState.init (.assignN op
          (.arrayRefN (.idN aN) (.idN iN)) (.idN eN))).all_vars_read ∧
      (baVisit BAState.init (.assignN op
          (.arrayRefN (.idN aN) (.idN iN)) (.idN eN))).all_vars_written = [] := by
  intro op aN iN eN
  have hvu : vuVisit VUState.start (.assignN op
      (.arrayRefN (.idN aN) (.idN iN)) (.idN eN)) =
      ⟨addName eN (addName aN (addName iN [])), addName aN [], []⟩ := by
    simp [vuVisit, vuLvalue, VUState.start]
  have hba : baVisit BAState.init (.assignN op
      (.arrayRefN (.idN aN) (.idN iN)) (.idN eN)) =
      ⟨[], [], addName eN (addName iN (addName aN [])),
       addName eN (addName iN (addName aN [])), [], false, true⟩ := by
    simp [baVisit, baAssignPre, baSeeId, BAState.init, addName]
  rw [hvu, hba]
  refine ⟨?_, ?_, ?_, ?_, rfl, ?_, ?_, rfl⟩
  · simp [addName]
  · exact mem_addName_of_mem eN (mem_addName_self aN _)
  · exact mem_addName_of_mem eN (mem_addName_of_mem aN (mem_addName_self iN _))
  · exact mem_addName_self eN _
  · exact mem_addName_of_mem eN (mem_addName_of_mem iN (mem_addName_self aN _))
  · exact mem_addName_of_mem eN (mem_addName_self iN _)

/-- **C6 counterexample.** The Python extractor yields a record for the
inner of two nested loops, but marks both records `is_nested = false` — it
tracks no nesting depth at all, so the inner record does not carry
"enclosing depth + 1". -/
theorem c6_python_extractor_no_depth_counterexample :
    (pyLoops (.forS (.nameT "i") 1 3 [.forS (.nameT "j") 2 3 []])).map
        PyLoop.is_nested = [false, false] := by
  decide

/-- **C6 (amended).** The C extractor records each `for` at the current
depth (`is_nested` iff depth > 0, depth 0 at top level) and visits all of
its children at depth + 1, so a directly nested loop's record carries the
enclosing record's depth plus 1 (first conjunct; concrete doubly nested
instance in the second). The Python extractor also yields one record per
nested loop, but hardcodes `is_nested = false` and tracks no depth (third
conjunct). -/
theorem c6_depth_tracking_c_only :
    (∀ (d : Nat) (i c n : Option CNode) (b : CNode),
       cLoopVisit d (.forN i c n b) =
         mkLoopInfo d i b ::
           (cLoopVisitOpt (d + 1) i ++ cLoopVisitOpt (d + 1) c ++
            cLoopVisitOpt (d + 1) n ++ cLoopVisit (d + 1) b) ∧
       (mkLoopInfo d i b).depth = d ∧
       (mkLoopInfo d i b).is_nested = decide (0 < d)) ∧
    (cLoopVisit 0 (.forN (some (.declN "i" none)) none none
        (.compoundN [.forN (some (.declN "j" none)) none none
          (.compoundN [])]))).map LoopInfo.depth = [0, 1] ∧
    (∀ (tgt : PyTarget) (ln el : Nat) (body : List PyStmt),
       pyLoops (.forS tgt ln el body) =
         ⟨targetVar tgt, ln, el, false⟩ :: pyLoopsList body) := by
  refine ⟨?_, by decide, ?_⟩
  · intro d i c n b
    exact ⟨by simp [cLoopVisit], by simp [mkLoopInfo], by simp [mkLoopInfo]⟩
  · intro tgt ln el body
    simp [pyLoops]

/-- **C7.** Binding extraction: a single-name target yields that name; a
tuple target yields exactly the comma-join of its simple-name elements
(non-name sub-patterns silently dropped, per the spec-side `simpleNames`);
every other target shape yields the `complex_target` degradation label;
and for a loop with such a target the label surfaces in the rendered
report (the extraction is a total function — no crash). -/
theorem c7_target_extraction_and_degradation :
    (∀ pid, targetVar (.nameT pid) = pid) ∧
    (∀ elts, targetVar (.tupleT elts) =
       String.intercalate ", " (simpleNames elts)) ∧
    (∀ t : PyTarget, (∀ pid, t ≠ .nameT pid) → (∀ es, t ≠ .tupleT es) →
       targetVar t = "complex_target") ∧
    pyIn "complex_target"
      (pyReport (pyLoops (.forS (.subscriptT (.nameT "pairs")) 1 2 []))) = true := by
  refine ⟨fun pid => rfl, ?_, ?_, by decide⟩
  · intro elts
    have h : ∀ l : List PyTarget,
        (l.filterMap fun e =>
          match e with
          | PyTarget.nameT pid => some pid
          | _ => none) = simpleNames l := by
      intro l
      induction l with
      | nil => simp [simpleNames]
      | cons e rest ih => cases e <;> simp [simpleNames, List.filterMap_cons, ih]
    simp [targetVar, h]
  · intro t h1 h2
    cases t with
    | nameT pid => exact absurd rfl (h1 pid)
    | tupleT es => exact absurd rfl (h2 es)
    | starredT inner => rfl
    | attributeT base attr => rfl
    | subscriptT base => rfl
    | listT es => rfl

/-- Witness for C7 at a concrete non-name, non-tuple target. -/
theorem c7_target_extraction_witness :
    targetVar (.subscriptT (.nameT "pairs")) = "complex_target" :=
  c7_target_extraction_and_degradation.2.2.1 (.subscriptT (.nameT "pairs"))
    (fun _pid h => PyTarget.noConfusion h) (fun _es h => PyTarget.noConfusion h)

/-- **C9.** Both entry points turn a parser failure into a returned value
carrying the underlying message: on `parse src = error e` the Python
entry point returns exactly the `Syntax Error ...` string and the C entry
point returns exactly the `C Parsing Error ...` string — no report is
built, and since both embeddings are total functions over `Except`-valued
parsers nothing propagates past the boundary. -/
theorem c9_parse_failure_returned_not_thrown :
    (∀ (parse : String → Except String (List PyStmt)) (src e : String),
       parse src = .error e →
       analyze_code_ast parse src = "Syntax Error during AST parsing: " ++ e) ∧
    (∀ (parse : String → Except String CNode)
       (render : List LoopInfo → List SectionRec → String) (src e : String),
       parse src = .error e →
       analyze_c_code_ast parse render src =
         "C Parsing Error: " ++ e ++
           "\n\nNote: pycparser requires preprocessed C code. Please ensure #include directives are resolved or removed for analysis.") := by
  constructor
  · intro parse src e h
    simp [analyze_code_ast, h]
  · intro parse render src e h
    simp [analyze_c_code_ast, h]

/-- Witness for C9 with concrete failing parsers. -/
theorem c9_parse_failure_returned_not_thrown_witness :
    analyze_code_ast (fun _ => .error "invalid syntax") "while (" =
      "Syntax Error during AST parsing: " ++ "invalid syntax" ∧
    analyze_c_code_ast (fun _ => .error "before: (") (fun _ _ => "") "int main(" =
      "C Parsing Error: " ++ "before: (" ++
        "\n\nNote: pycparser requires preprocessed C code. Please ensure #include directives are resolved or removed for analysis." :=
  ⟨c9_parse_failure_returned_not_thrown.1 _ "while (" "invalid syntax" rfl,
   c9_parse_failure_returned_not_thrown.2 _ _ "int main(" "before: (" rfl⟩

/-- **C10.** The shared-variables filter uses Python substring membership
against the iterator name, not equality: `"i" in "idx"` holds although the
names differ (first conjunct); on a concrete loop with iterator `idx` and
distinct shared variables `i` and `q`, `i` is silently dropped from the
reported list while `q` survives (second conjunct); and in general any
shared variable whose name is a substring of the iterator name is omitted
(third conjunct). -/
theorem c10_shared_filter_substring_not_equality :
    (pyIn "i" "idx" = true ∧ "i" ≠ "idx") ∧
    ((mkLoopInfo 0 (some (.declN "idx" none))
        (.compoundN [.assignN "=" (.idN "q") (.idN "i")])).init_var = some "idx" ∧
     "i" ∈ (mkLoopInfo 0 (some (.declN "idx" none))
        (.compoundN [.assignN "=" (.idN "q") (.idN "i")])).potential_shared_vars ∧
     "i" ∉ reportShared (mkLoopInfo 0 (some (.declN "idx" none))
        (.compoundN [.assignN "=" (.idN "q") (.idN "i")])) ∧
     "q" ∈ reportShared (mkLoopInfo 0 (some (.declN "idx" none))
        (.compoundN [.assignN "=" (.idN "q") (.idN "i")]))) ∧
    (∀ (L : LoopInfo) (v : String),
       pyIn v (L.init_var.getD "") = true → v ∉ reportShared L) := by
  refine ⟨by decide, by decide, ?_⟩
  intro L v h
  simp [reportShared, List.mem_filter, h]

/-- Witness for C10's general omission rule at the concrete loop. -/
theorem c10_shared_filter_substring_witness :
    "i" ∉ reportShared (mkLoopInfo 0 (some (.declN "idx" none))
        (.compoundN [.assignN "=" (.idN "q") (.idN "i")])) :=
  c10_shared_filter_substring_not_equality.2.2
    (mkLoopInfo 0 (some (.declN "idx" none))
      (.compoundN [.assignN "=" (.idN "q") (.idN "i")])) "i" (by decide)

end MAAP
